import Mathlib

/-!
Verification development for the TypeScript backend-client layer of the
language server (`tsBackend.ts` and the server bootstrap around it).

The embedding is shallow: the stateful TypeScript classes become explicit
state records with pure transition functions; every awaited asynchronous
call is modelled as an atomic step whose outcome is supplied by an
environment record (the single-threaded event loop guarantees that all
mutation between suspension points is atomic).  Strings are modelled as
sequences of Unicode scalar values; the sources only manipulate ASCII
file names and protocol text, where this coincides with JavaScript's
UTF-16 code-unit view.
-/

namespace VueLS

/-! ## Node `path.posix` helpers used by the source

`normalizeFileName`, `supportsTsgoFile`, `languageIdForFile` and
`isFileInDirectory` in `tsBackend.ts` are built on `path.normalize`,
`path.extname` and `path.dirname`.  The three Node functions are ported
here following the algorithms of Node's `lib/path.js` (posix branch). -/

/-- JavaScript `String.prototype.startsWith`: a prefix test. -/
def strStartsWith (s p : String) : Bool := p.data.isPrefixOf s.data

/-- JavaScript `String.prototype.endsWith`: a suffix test. -/
def strEndsWith (s p : String) : Bool := p.data.isSuffixOf s.data

/-- `String.prototype.toLowerCase` (character-wise; the sources only
lower-case ASCII file extensions). -/
def toLowerStr (s : String) : String := (s.data.map Char.toLower).asString

/-- `String.prototype.trim`: strip whitespace from both ends. -/
def jsTrim (s : String) : String :=
  (((s.data.dropWhile Char.isWhitespace).reverse.dropWhile Char.isWhitespace).reverse).asString

/-- Split on a single separator character (the `path.split('/')` view used
by `normalizeString`): `"a//b"` yields `["a", "", "b"]`. -/
def splitChar (sep : Char) : List Char → List (List Char)
  | [] => [[]]
  | c :: rest =>
    match splitChar sep rest with
    | [] => [[]]
    | g :: gs => if c = sep then [] :: g :: gs else (c :: g) :: gs

/-- One resolution pass of Node's `normalizeString`: segments are processed
left to right; empty and `.` segments are dropped, `..` pops the previous
segment (or is kept when the path is relative and there is nothing to pop).
The accumulator is kept reversed. -/
def normSegs (allowAboveRoot : Bool) : List String → List String → List String
  | acc, [] => acc.reverse
  | acc, seg :: rest =>
    if seg = "" || seg = "." then
      normSegs allowAboveRoot acc rest
    else if seg = ".." then
      match acc with
      | top :: accRest =>
        if top = ".." then normSegs allowAboveRoot (".." :: top :: accRest) rest
        else normSegs allowAboveRoot accRest rest
      | [] =>
        if allowAboveRoot then normSegs allowAboveRoot [".."] rest
        else normSegs allowAboveRoot [] rest
    else
      normSegs allowAboveRoot (seg :: acc) rest

/-- Node `path.posix.normalize`. -/
def posixNormalize (p : String) : String :=
  if p = "" then "."
  else
    let isAbsolute := strStartsWith p "/"
    let trailingSeparator := strEndsWith p "/"
    let ns := String.intercalate "/"
      (normSegs (!isAbsolute) [] ((splitChar '/' p.data).map List.asString))
    if ns = "" then
      if isAbsolute then "/" else if trailingSeparator then "./" else "."
    else
      let ns := if trailingSeparator then ns ++ "/" else ns
      if isAbsolute then "/" ++ ns else ns

/-- Scan of Node `path.posix.dirname`: walking indices from the end of the
string down to index 1, skip trailing separators, then return the index of
the first separator met after a non-separator character. -/
def dirnameLoop (cs : List Char) : Nat → Bool → Option Nat
  | 0, _ => none
  | i + 1, matchedSlash =>
    if cs.getD (i + 1) ' ' = '/' then
      if matchedSlash then dirnameLoop cs i matchedSlash else some (i + 1)
    else
      dirnameLoop cs i false

/-- Node `path.posix.dirname`. -/
def posixDirname (p : String) : String :=
  if p = "" then "."
  else
    let cs := p.data
    let hasRoot := cs.getD 0 ' ' = '/'
    match dirnameLoop cs (cs.length - 1) true with
    | none => if hasRoot then "/" else "."
    | some e => if hasRoot && e = 1 then "//" else (cs.take e).asString

/-- Scanner state of Node `path.posix.extname`. -/
structure ExtScan where
  startDot : Option Nat
  startPart : Nat
  scanEnd : Option Nat
  matchedSlash : Bool
  preDotState : Int
deriving DecidableEq

/-- The right-to-left scan of Node `path.posix.extname`; the `Nat` argument
is the number of indices still to visit (indices `n-1` down to `0`). -/
def extLoop (cs : List Char) : Nat → ExtScan → ExtScan
  | 0, st => st
  | n + 1, st =>
    let i := n
    let c := cs.getD i ' '
    if c = '/' then
      if st.matchedSlash then extLoop cs n st
      else { st with startPart := i + 1 }
    else
      let st1 :=
        if st.scanEnd = none then { st with matchedSlash := false, scanEnd := some (i + 1) }
        else st
      let st2 :=
        if c = '.' then
          match st1.startDot with
          | none => { st1 with startDot := some i }
          | some _ => if st1.preDotState ≠ 1 then { st1 with preDotState := 1 } else st1
        else if st1.startDot ≠ none then { st1 with preDotState := -1 }
        else st1
      extLoop cs n st2

/-- Node `path.posix.extname`. -/
def posixExtname (p : String) : String :=
  let cs := p.data
  let st := extLoop cs cs.length ⟨none, 0, none, true, 0⟩
  match st.startDot, st.scanEnd with
  | some sd, some e =>
    if st.preDotState = 0 ∨ (st.preDotState = 1 ∧ sd = e - 1 ∧ sd = st.startPart + 1) then ""
    else ((cs.drop sd).take (e - sd)).asString
  | _, _ => ""

/-- `replace(/\\/g, '/')` from the source. -/
def replaceBackslashes (s : String) : String :=
  (s.data.map (fun c => if c = '\\' then '/' else c)).asString

/-- `normalizeFileName` from `tsBackend.ts`:
`path.normalize(fileName).replace(/\\/g, '/')`. -/
def normalizeFileName (fileName : String) : String :=
  replaceBackslashes (posixNormalize fileName)

/-- `replace(/\/+$/, '')` from `isFileInDirectory`. -/
def stripTrailingSlashes (s : String) : String :=
  ((s.data.reverse.dropWhile (fun c => c = '/')).reverse).asString

/-- `isFileInDirectory` from `tsBackend.ts`. -/
def isFileInDirectory (fileName directory : String) : Bool :=
  let normalizedFileName := normalizeFileName fileName
  let normalizedDirectory := stripTrailingSlashes (normalizeFileName directory)
  normalizedFileName = normalizedDirectory
    || strStartsWith normalizedFileName (normalizedDirectory ++ "/")

/-- The `tsgoSupportedExtensions` set from `tsBackend.ts`. -/
def tsgoSupportedExtensions : List String :=
  [".ts", ".tsx", ".mts", ".cts", ".js", ".jsx", ".mjs", ".cjs", ".d.ts"]

/-- `supportsTsgoFile` from `tsBackend.ts`. -/
def supportsTsgoFile (fileName : String) : Bool :=
  let extname := toLowerStr (posixExtname fileName)
  if tsgoSupportedExtensions.contains extname then true
  else strEndsWith fileName ".d.ts"

/-- `languageIdForFile` from `tsBackend.ts`. -/
def languageIdForFile (fileName : String) (fallbackLanguageId : String) : String :=
  let extname := toLowerStr (posixExtname fileName)
  if extname = ".ts" ∨ extname = ".mts" ∨ extname = ".cts" ∨ extname = ".d.ts" then "typescript"
  else if extname = ".tsx" then "typescriptreact"
  else if extname = ".js" ∨ extname = ".mjs" ∨ extname = ".cjs" then "javascript"
  else if extname = ".jsx" then "javascriptreact"
  else fallbackLanguageId

/-! ## Coordinate translation (`positionToOffset`, `offsetToPosition`,
`rangeToTextSpan`, `documentHighlightKindToTs`) -/

/-- An LSP line/character position.  The source's `Math.max(0, ·)` clamps on
possibly-negative JavaScript numbers are the identity on `Nat`. -/
structure Position where
  line : Nat
  character : Nat
deriving DecidableEq

/-- An LSP range; the source's `end` field is called `stop` here (`end` is a
Lean keyword). -/
structure Range where
  start : Position
  stop : Position
deriving DecidableEq

/-- A TypeScript text span. -/
structure TextSpan where
  start : Nat
  length : Nat
deriving DecidableEq

/-- The `while` loop of `positionToOffset`: advance the index until the
target line count has been consumed or the text ends. -/
def scanToLine : List Char → Nat → Nat → Nat
  | [], _, index => index
  | c :: rest, targetLine, index =>
    if targetLine = 0 then index
    else if c = '\n' then scanToLine rest (targetLine - 1) (index + 1)
    else scanToLine rest targetLine (index + 1)

/-- `positionToOffset` from `tsBackend.ts`. -/
def positionToOffset (text : String) (position : Position) : Nat :=
  let index := scanToLine text.data position.line 0
  min text.length (index + position.character)

/-- The `for` loop of `offsetToPosition`: walk the first `steps` characters,
tracking the current line and the index just after the last newline. -/
def scanToOffset : List Char → Nat → Nat → Nat → Nat → Nat × Nat
  | _, 0, _, line, lineStart => (line, lineStart)
  | [], _, _, line, lineStart => (line, lineStart)
  | c :: rest, steps + 1, i, line, lineStart =>
    if c = '\n' then scanToOffset rest steps (i + 1) (line + 1) (i + 1)
    else scanToOffset rest steps (i + 1) line lineStart

/-- `offsetToPosition` from `tsBackend.ts`. -/
def offsetToPosition (text : String) (offset : Nat) : Position :=
  let targetOffset := min offset text.length
  let p := scanToOffset text.data targetOffset 0 0 0
  ⟨p.1, targetOffset - p.2⟩

/-- `rangeToTextSpan` from `tsBackend.ts` (`Math.max(0, end - start)` is
truncated `Nat` subtraction). -/
def rangeToTextSpan (text : String) (range : Range) : TextSpan :=
  let s := positionToOffset text range.start
  let e := positionToOffset text range.stop
  { start := s, length := e - s }

/-- `documentHighlightKindToTs` from `tsBackend.ts`; the argument is the
optional numeric LSP `DocumentHighlightKind`. -/
def documentHighlightKindToTs (kind : Option Nat) : String :=
  if kind = some 2 then "reference"
  else if kind = some 3 then "writtenReference"
  else "none"

/-! ## Hover content extraction (`contentsToText`, `markdownToDisplayString`,
`hoverToDisplayString`) -/

/-- The union `MarkupContent | MarkedString | MarkedString[]` of hover
contents.  Both object shapes (`MarkupContent` and `{language, value}`)
collapse to `obj`, since the source returns `contents.value` for either. -/
inductive HoverContents where
  | str (s : String)
  | obj (value : String) (language : Option String)
  | arr (items : List HoverContents)

mutual

/-- `contentsToText` from `tsBackend.ts`. -/
def contentsToText : HoverContents → String
  | .str s => s
  | .obj value _ => value
  | .arr items =>
    String.intercalate "\n" ((contentsListToText items).filter (fun t => t ≠ ""))

/-- The `contents.map(contentsToText)` of the array branch. -/
def contentsListToText : List HoverContents → List String
  | [] => []
  | c :: cs => contentsToText c :: contentsListToText cs

end

/-- The backtick character (code point 96). -/
def backtick : Char := Char.ofNat 96

/-- `\w` of the source's code-block regular expression. -/
def isWordChar (c : Char) : Bool := c.isAlphanum || c = '_'

/-- Whether a character list starts with three backticks. -/
def isTripleBacktick : List Char → Bool
  | a :: b :: c :: _ => a = backtick && b = backtick && c = backtick
  | _ => false

/-- The lazy capture group `([\s\S]*?)` of the code-block regular
expression: the shortest run of characters up to the next triple backtick
(`none` when no closing fence exists). -/
def captureUntilFence : List Char → List Char → Option String
  | [], _ => none
  | c :: rest, acc =>
    if isTripleBacktick (c :: rest) then some acc.reverse.asString
    else captureUntilFence rest (c :: acc)

/-- One anchored attempt of the regular expression
`/(triple backtick)(?:\w+)?\n([\s\S]*?)(triple backtick)/` at the head of the
list.  Backtracking over the optional word run collapses to requiring a
newline right after the maximal word run, because `\w` excludes newlines. -/
def codeBlockAt (cs : List Char) : Option String :=
  match cs with
  | a :: b :: c :: rest =>
    if a = backtick && b = backtick && c = backtick then
      match rest.dropWhile isWordChar with
      | nl :: body => if nl = '\n' then captureUntilFence body [] else none
      | [] => none
    else none
  | _ => none

/-- Left-to-right scan for the first match of the code-block regular
expression; returns its capture group. -/
def findCodeBlock : List Char → Option String
  | [] => none
  | c :: rest =>
    match codeBlockAt (c :: rest) with
    | some cap => some cap
    | none => findCodeBlock rest

/-- `markdownToDisplayString` from `tsBackend.ts`.  `codeBlock?.[1]` is
truthy only when the capture group is a non-empty string. -/
def markdownToDisplayString (markdown : String) : String :=
  match findCodeBlock markdown.data with
  | some cap => if cap ≠ "" then jsTrim cap else jsTrim markdown
  | none => jsTrim markdown

/-- An LSP hover response. -/
structure Hover where
  contents : HoverContents

/-- `hoverToDisplayString` from `tsBackend.ts`. -/
def hoverToDisplayString : Option Hover → Option String
  | none => none
  | some hover => some (markdownToDisplayString (contentsToText hover.contents))

/-! ## Hover readiness (`hoverReady`, `hoverReadyWaiters`,
`awaitReadyForHover`, `markHoverReady`, `resolveHoverReadyWaiters`)

Waiter closures are identified by the `Nat` at which they were allocated;
`resolutions` is an instrumentation log recording the boolean each
`awaitReadyForHover` call eventually resolves with, keyed by that `Nat`.
A timer is armed exactly while its waiter is in the set: `finish` removes
the waiter and clears its timer together, and `resolveHoverReadyWaiters`
invokes `finish` synchronously on every waiter it clears. -/

namespace HoverReadiness

/-- The readiness-related fields of `TsgoLspBackendClient`. -/
structure State where
  hoverReady : Bool
  disposed : Bool
  waiters : List Nat
  nextWaiter : Nat
  resolutions : List (Nat × Bool)
deriving DecidableEq

/-- `resolveHoverReadyWaiters` from `tsBackend.ts`. -/
def resolveHoverReadyWaiters (ready : Bool) (s : State) : State :=
  if s.waiters.isEmpty then s
  else
    { s with
      waiters := []
      resolutions := s.resolutions ++ s.waiters.map (fun w => (w, ready)) }

/-- `markHoverReady` from `tsBackend.ts`. -/
def markHoverReady (s : State) : State :=
  if s.hoverReady then s
  else resolveHoverReadyWaiters true { s with hoverReady := true }

/-- `awaitReadyForHover` from `tsBackend.ts`.  Returns `some b` when the
call resolves immediately with `b`, and `none` when a waiter was
registered (allocating the identifier `s.nextWaiter`). -/
def awaitReadyForHover (timeoutMs : Int) (s : State) : Option Bool × State :=
  if s.hoverReady then (some true, s)
  else if s.disposed then (some false, s)
  else if timeoutMs ≤ 0 then (some false, s)
  else (none, { s with waiters := s.waiters ++ [s.nextWaiter], nextWaiter := s.nextWaiter + 1 })

/-- The `setTimeout(() => finish(false), timeoutMs)` callback of a waiter:
it can only run while the waiter is still registered (its timer is cleared
whenever the waiter is removed), and then resolves `false`. -/
def fireWaiterTimeout (w : Nat) (s : State) : State :=
  if w ∈ s.waiters then
    { s with waiters := s.waiters.erase w, resolutions := s.resolutions ++ [(w, false)] }
  else s

/-- The readiness effect of `dispose()`: `disposed` is set at the top of
`dispose` and `resolveHoverReadyWaiters(false)` runs before teardown. -/
def disposeReadiness (s : State) : State :=
  resolveHoverReadyWaiters false { s with disposed := true }

/-- Events touching the readiness state.  `hover` is a
`getQuickInfoAtPosition` call (which invokes `markHoverReady` first);
`register` is an `awaitReadyForHover` call; `fire w` is waiter `w`'s
timeout elapsing; `dispose` is client disposal. -/
inductive Event where
  | hover
  | register (timeoutMs : Int)
  | fire (w : Nat)
  | dispose
deriving DecidableEq

/-- One event's effect.  An immediately-resolved `awaitReadyForHover` call
is also logged, under a freshly allocated identifier. -/
def step (s : State) : Event → State
  | .hover => markHoverReady s
  | .register timeoutMs =>
    match awaitReadyForHover timeoutMs s with
    | (some b, s1) =>
      { s1 with
        resolutions := s1.resolutions ++ [(s1.nextWaiter, b)]
        nextWaiter := s1.nextWaiter + 1 }
    | (none, s1) => s1
  | .fire w => fireWaiterTimeout w s
  | .dispose => disposeReadiness s

/-- A run of the readiness machine. -/
def run (s : State) (events : List Event) : State := events.foldl step s

end HoverReadiness

/-! ## The sidecar (`TsgoLspBackendClient`) request surface

Each uniform request method is modelled as a pure function over an
environment record carrying the outcome of every external interaction the
method performs: the sidecar's LSP answer, the in-memory/on-disk text of
the file, the local module resolution, and the fallback client's answer.
A fallback outcome is an `Except String (Option α)`: `Except.error`
models a rejected promise, `Except.ok none` a `null`/`undefined` result.
An absent fallback client is modelled by `Option.none`. -/

namespace Tsgo

open VueLS.HoverReadiness

/-- `callFallback` from `tsBackend.ts`: with no fallback client the method
resolves `undefined`; otherwise the fallback's promise is returned
unchanged, so a rejection propagates to the caller. -/
def callFallback {α : Type} (fallback : Option (Except String (Option α))) :
    Except String (Option α) :=
  match fallback with
  | none => Except.ok none
  | some r => r

/-- `callFallbackValue` from `tsBackend.ts`, before the `catch` collapses
its result: the `try` block awaits the fallback and maps its value through
`result ?? undefined`; a rejection is caught, logged and turned into
`undefined`. -/
def callFallbackValueE {α : Type} (fallback : Option (Except String (Option α))) :
    Except String (Option α) :=
  match fallback with
  | none => Except.ok none
  | some (Except.ok v) => Except.ok v
  | some (Except.error _) => Except.ok none

/-- The value observed by callers of `callFallbackValue`. -/
def callFallbackValue {α : Type} (fallback : Option (Except String (Option α))) : Option α :=
  match callFallbackValueE fallback with
  | Except.ok v => v
  | Except.error _ => none

/-- `callFallbackProjectInfo` from `tsBackend.ts` (same catch-to-`null`
shape as `callFallbackValue`). -/
def callFallbackProjectInfoE (fallback : Option (Except String (Option String))) :
    Except String (Option String) :=
  match fallback with
  | none => Except.ok none
  | some (Except.ok v) => Except.ok v
  | some (Except.error _) => Except.ok none

/-- The value observed by callers of `callFallbackProjectInfo`. -/
def callFallbackProjectInfo (fallback : Option (Except String (Option String))) :
    Option String :=
  match callFallbackProjectInfoE fallback with
  | Except.ok v => v
  | Except.error _ => none

/-- External outcomes consumed by one `sendLspRequest` call. -/
structure LspRequestEnv (T : Type) where
  /-- Outcome of `await this.ensureStarted()`. -/
  startResult : Except String Unit
  /-- Whether `this.connectionToTsgo` is set after starting. -/
  connectionPresent : Bool
  /-- Whether `params?.textDocument?.uri` is present. -/
  hasTextDocumentUri : Bool
  /-- Outcome of `await this.syncOpenDocumentByUri(...)`. -/
  syncResult : Except String Unit
  /-- Outcome of `await this.connectionToTsgo.sendRequest(...)`. -/
  requestResult : Except String (Option T)

/-- The `try` block of `sendLspRequest`. -/
def sendLspRequestBody {T : Type} (env : LspRequestEnv T) : Except String (Option T) :=
  match env.startResult with
  | Except.error e => Except.error e
  | Except.ok _ =>
    if !env.connectionPresent then Except.ok none
    else
      match (if env.hasTextDocumentUri then env.syncResult else Except.ok ()) with
      | Except.error e => Except.error e
      | Except.ok _ => env.requestResult

/-- `sendLspRequest` from `tsBackend.ts`: any rejection inside the `try`
block is caught, logged as a warning and resolved as `null`. -/
def sendLspRequest {T : Type} (env : LspRequestEnv T) : Except String (Option T) :=
  match sendLspRequestBody env with
  | Except.ok v => Except.ok v
  | Except.error _ => Except.ok none

/-- `getFileText` from `tsBackend.ts`: the open document's text, else
`ts.sys.readFile` (which may yield nothing). -/
def getFileText (openDocText diskText : Option String) : Option String :=
  match openDocText with
  | some t => some t
  | none => diskText

/-- A representative component-structure request delegated through
`callFallback` (`collectExtractProps` and its eleven siblings share this
one-line body). -/
def collectExtractProps (fallback : Option (Except String (Option Nat))) :
    Except String (Option Nat) :=
  callFallback fallback

/-- An LSP `DocumentHighlight` item of the sidecar's response. -/
structure DocumentHighlight where
  range : Range
  kind : Option Nat
deriving DecidableEq

/-- One `highlightSpans` entry of the TypeScript-shaped result. -/
structure HighlightSpan where
  textSpan : TextSpan
  kind : String
deriving DecidableEq

/-- A `ts.DocumentHighlights` result entry. -/
structure DocumentHighlights where
  fileName : String
  highlightSpans : List HighlightSpan
deriving DecidableEq

/-- External outcomes consumed by one `getDocumentHighlights` call. -/
structure HighlightsEnv where
  /-- The resolved value of the `textDocument/documentHighlight` request
  (`sendLspRequest` already collapses failures to `none`). -/
  sidecarResponse : Option (List DocumentHighlight)
  /-- Text of the document if open in the host. -/
  openDocText : Option String
  /-- Text of the file on disk. -/
  diskText : Option String
  /-- Outcome of the fallback client's `getDocumentHighlights`. -/
  fallback : Option (Except String (Option (List DocumentHighlights)))

/-- Observable outcome of a sidecar-first request. -/
structure RequestOutcome (α : Type) where
  result : Option α
  sidecarAttempted : Bool
  fallbackInvoked : Bool
deriving DecidableEq

/-- `TsgoLspBackendClient.getDocumentHighlights` from `tsBackend.ts`. -/
def getDocumentHighlights (env : HighlightsEnv) (fileName : String) (_position : Nat) :
    RequestOutcome (List DocumentHighlights) :=
  if supportsTsgoFile fileName then
    let viaFallback : RequestOutcome (List DocumentHighlights) :=
      { result := callFallbackValue env.fallback
        sidecarAttempted := true
        fallbackInvoked := true }
    match env.sidecarResponse with
    | some response =>
      if response.length ≠ 0 then
        match getFileText env.openDocText env.diskText with
        | some text =>
          { result := some
              [{ fileName := fileName
                 highlightSpans := response.map (fun item =>
                   { textSpan := rangeToTextSpan text item.range
                     kind := documentHighlightKindToTs item.kind }) }]
            sidecarAttempted := true
            fallbackInvoked := false }
        | none => viaFallback
      else viaFallback
    | none => viaFallback
  else
    { result := callFallbackValue env.fallback
      sidecarAttempted := false
      fallbackInvoked := true }

/-- External outcomes consumed by one `getQuickInfoAtPosition` call. -/
structure QuickInfoEnv where
  /-- The resolved value of the `textDocument/hover` request. -/
  sidecarHover : Option Hover
  /-- Outcome of the fallback client's `getQuickInfoAtPosition`. -/
  fallback : Option (Except String (Option String))

/-- Outcome of `getQuickInfoAtPosition`, including the updated readiness
state (the method calls `markHoverReady` before anything else). -/
structure QuickInfoOutcome where
  result : Option String
  sidecarAttempted : Bool
  fallbackInvoked : Bool
  readyState : HoverReadiness.State
deriving DecidableEq

/-- `TsgoLspBackendClient.getQuickInfoAtPosition` from `tsBackend.ts`. -/
def getQuickInfoAtPosition (env : QuickInfoEnv) (fileName : String)
    (rs : HoverReadiness.State) : QuickInfoOutcome :=
  let rs := markHoverReady rs
  if supportsTsgoFile fileName then
    let display := hoverToDisplayString env.sidecarHover
    match display with
    | some d =>
      if d ≠ "" then
        { result := some d, sidecarAttempted := true, fallbackInvoked := false, readyState := rs }
      else
        { result := callFallbackValue env.fallback
          sidecarAttempted := true, fallbackInvoked := true, readyState := rs }
    | none =>
      { result := callFallbackValue env.fallback
        sidecarAttempted := true, fallbackInvoked := true, readyState := rs }
  else
    { result := callFallbackValue env.fallback
      sidecarAttempted := false, fallbackInvoked := true, readyState := rs }

/-- External outcomes consumed by one `resolveModuleName` call. -/
structure ResolveModuleEnv where
  /-- `ts.resolveModuleName(...).resolvedModule?.resolvedFileName`
  (TypeScript library call, supplied by the environment). -/
  resolvedModule : Option String
  /-- Outcome of the fallback client's `resolveModuleName`. -/
  fallback : Option (Except String (Option String))

/-- `TsgoLspBackendClient.resolveModuleName` from `tsBackend.ts`.  The
local resolution attempt plays the primary role; its result is used only
when truthy (a non-empty string). -/
def resolveModuleName (env : ResolveModuleEnv) (fileName : String) :
    RequestOutcome String :=
  if supportsTsgoFile fileName then
    let resolved := env.resolvedModule.map replaceBackslashes
    match resolved with
    | some r =>
      if r ≠ "" then
        { result := some r, sidecarAttempted := true, fallbackInvoked := false }
      else
        { result := callFallbackValue env.fallback
          sidecarAttempted := true, fallbackInvoked := true }
    | none =>
      { result := callFallbackValue env.fallback
        sidecarAttempted := true, fallbackInvoked := true }
  else
    { result := callFallbackValue env.fallback
      sidecarAttempted := false, fallbackInvoked := true }

end Tsgo

/-! ### Project-info resolution (`findClosestConfig`, `getProjectInfo`)

`ts.findConfigFile` belongs to the TypeScript library, not to this
repository; it is modelled from the spec's description of the upward walk.
The file system is abstracted as an existence predicate on paths. -/

/-- `ts.server` `combinePaths`-style join used by the upward walk. -/
def combinePaths (dir fileName : String) : String :=
  if strEndsWith dir "/" then dir ++ fileName else dir ++ "/" ++ fileName

/-- Fuel-indexed upward walk; the fuel only guards termination (each step
moves to the parent directory, whose path is strictly shorter). -/
def findConfigFileAux (fileExists : String → Bool) (configName : String) :
    Nat → String → Option String
  | 0, _ => none
  | fuel + 1, dir =>
    let fileName := combinePaths dir configName
    if fileExists fileName then some fileName
    else
      let parent := posixDirname dir
      if parent = dir then none
      else findConfigFileAux fileExists configName fuel parent

/-- Modelled from the spec: `ts.findConfigFile` (TypeScript library code,
not part of this repository's sources) "walks the file's directory upward
searching for the nearest configuration file" — starting at `searchPath`
it tests each ancestor directory in turn and returns the first hit. -/
def findConfigFile (fileExists : String → Bool) (searchPath configName : String) :
    Option String :=
  findConfigFileAux fileExists configName (searchPath.length + 1) searchPath

/-- Stable insertion of `x` after every element with a key at least as
large; `foldl` over it reproduces JavaScript's stable
`sort((a, b) => key(b) - key(a))`. -/
def insertByKeyDesc (key : String → Nat) (x : String) : List String → List String
  | [] => [x]
  | y :: ys => if key x ≤ key y then y :: insertByKeyDesc key x ys else x :: y :: ys

/-- Stable descending sort by a numeric key (the behaviour of
`Array.prototype.sort` with comparator `(a, b) => key(b) - key(a)`). -/
def sortByKeyDesc (key : String → Nat) (l : List String) : List String :=
  l.foldl (fun acc x => insertByKeyDesc key x acc) []

/-- `TsgoLspBackendClient.findClosestConfig` from `tsBackend.ts`. -/
def findClosestConfig (fileExists : String → Bool) (fileName : String) : Option String :=
  let normalized := normalizeFileName fileName
  let dir := posixDirname normalized
  let tsconfig := findConfigFile fileExists dir "tsconfig.json"
  let jsconfig := findConfigFile fileExists dir "jsconfig.json"
  let candidates := ([tsconfig, jsconfig].filterMap id).map normalizeFileName
  if candidates.isEmpty then none
  else
    let containing :=
      sortByKeyDesc (fun c => (posixDirname c).length)
        (candidates.filter (fun c => isFileInDirectory normalized (posixDirname c)))
    match containing.head? with
    | some c => some c
    | none => (sortByKeyDesc String.length candidates).head?

/-- `TsgoLspBackendClient.getProjectInfo` from `tsBackend.ts`; the boolean
records whether the request fell through to the secondary client's
project-info lookup. -/
def Tsgo.getProjectInfo (fileExists : String → Bool)
    (fallback : Option (Except String (Option String))) (fileName : String) :
    Option String × Bool :=
  let normalizedFileName := normalizeFileName fileName
  match findClosestConfig fileExists normalizedFileName with
  | some configFileName => (some configFileName, false)
  | none => (Tsgo.callFallbackProjectInfo fallback, true)

/-! ## The request correlator

The pending table of `TsServerBackendClient` / `TsServerProcessBackendClient`
keyed by request identifier, with the response handler
(`handleTsServerMessage` / the `tsserver/response` listener) and the
`setTimeout` handler of `sendTsServerRequest` / `sendRawTsServerRequest`.
Entry values (resolve callback and timer handle) are abstracted away; the
`trace` log records each resolution as `(identifier, body)`, with `none`
standing for `null`.  A timer is armed exactly while its entry is in the
table (every removal path runs `clearTimeout` on the entry's timer first),
so a timeout event is a no-op for an absent identifier. -/

namespace Correlator

/-- Pending table plus resolution log. -/
structure State where
  pending : List Nat
  trace : List (Nat × Option Nat)
deriving DecidableEq

/-- A response arriving from the backend (as filtered by
`handleTsServerMessage`: a well-formed `response` message with a numeric
`request_seq`), or a request timeout firing. -/
inductive Event where
  | response (id : Nat) (success : Bool) (body : Option Nat)
  | timeout (id : Nat)
deriving DecidableEq

/-- One event's effect on the table.  A response for an unknown identifier
is dropped; a known one is removed and resolved with its body (`null`
when the backend reported failure or sent no body).  A timeout removes the
entry and resolves `null`. -/
def step (s : State) : Event → State
  | .response id success body =>
    if id ∈ s.pending then
      { pending := s.pending.erase id
        trace := s.trace ++ [(id, if success then body else none)] }
    else s
  | .timeout id =>
    if id ∈ s.pending then
      { pending := s.pending.erase id, trace := s.trace ++ [(id, none)] }
    else s

/-- A run of the correlator. -/
def run (s : State) (events : List Event) : State := events.foldl step s

/-- Number of resolutions delivered to request `id`. -/
def countKey (id : Nat) (trace : List (Nat × Option Nat)) : Nat :=
  (trace.filter (fun e => e.1 = id)).length

/-- Whether an event is a response correlated to `id`. -/
def isResponseFor (id : Nat) : Event → Bool
  | .response i _ _ => i = id
  | _ => false

end Correlator

/-! ## The sidecar document synchronizer

`TsgoLspBackendClient.syncOpenDocument` / `syncClosedDocument`.  The
version map is an association list with the update/delete semantics of a
JavaScript `Map` (keys unique); notifications carry the full payloads the
source sends. -/

namespace DocSync

/-- The host document fields read by the synchronizer. -/
structure Doc where
  scheme : String
  fsPath : String
  languageId : String
  version : Nat
  text : String
deriving DecidableEq

/-- Notifications sent to the sidecar.  `didChange` carries a single
whole-document replacement (`contentChanges: [{ text }]`). -/
inductive Notif where
  | didOpen (fileName languageId : String) (version : Nat) (text : String)
  | didChange (fileName : String) (version : Nat) (fullText : String)
  | didClose (fileName : String)
deriving DecidableEq

/-- The `openDocumentVersions` map. -/
abbrev VersionMap := List (String × Nat)

/-- `Map.get`. -/
def lookup : VersionMap → String → Option Nat
  | [], _ => none
  | e :: rest, k => if e.1 = k then some e.2 else lookup rest k

/-- `Map.set`: replace in place, else append. -/
def setVersion : VersionMap → String → Nat → VersionMap
  | [], k, v => [(k, v)]
  | e :: rest, k, v => if e.1 = k then (k, v) :: rest else e :: setVersion rest k v

/-- `Map.delete`. -/
def remove (m : VersionMap) (k : String) : VersionMap :=
  m.filter (fun e => e.1 ≠ k)

/-- `TsgoLspBackendClient.syncOpenDocument` from `tsBackend.ts`;
`hasConnection` is whether `this.connectionToTsgo` is set. -/
def syncOpenDocument (hasConnection : Bool) (m : VersionMap) (doc : Doc) :
    VersionMap × List Notif :=
  if !hasConnection then (m, [])
  else if doc.scheme ≠ "file" then (m, [])
  else
    let fileName := normalizeFileName doc.fsPath
    if !supportsTsgoFile fileName then (m, [])
    else
      match lookup m fileName with
      | none =>
        (setVersion m fileName doc.version,
         [Notif.didOpen fileName (languageIdForFile fileName doc.languageId) doc.version doc.text])
      | some trackedVersion =>
        if trackedVersion ≠ doc.version then
          (setVersion m fileName doc.version, [Notif.didChange fileName doc.version doc.text])
        else (m, [])

/-- `TsgoLspBackendClient.syncClosedDocument` from `tsBackend.ts`. -/
def syncClosedDocument (hasConnection : Bool) (m : VersionMap) (scheme fsPath : String) :
    VersionMap × List Notif :=
  if !hasConnection then (m, [])
  else if scheme ≠ "file" then (m, [])
  else
    let fileName := normalizeFileName fsPath
    match lookup m fileName with
    | none => (m, [])
    | some _ => (remove m fileName, [Notif.didClose fileName])

end DocSync

/-! ## The spawned tsserver client (`TsServerProcessBackendClient`)

Process-lifecycle state and the operations `dispose`, the `exit` handler
installed by `startProcess`, `ensureProcessStarted` and
`sendRawTsServerRequest`.  A request round-trip is modelled atomically
(registration and resolution of its pending entry happen while the call is
awaited); its outcome is supplied by the environment as `Option Nat`
(`none` covers timeout, a send error and a failure response — every path
resolves `null`).  The process handle keeps the two flags the source
reads: `connected` (IPC channel usable) and `alive` (no exit code or
signal yet). -/

namespace ProcessClient

/-- The `childProcess.ChildProcess` fields the client reads. -/
structure Proc where
  connected : Bool
  alive : Bool
deriving DecidableEq

/-- The lifecycle fields of `TsServerProcessBackendClient`. -/
structure PState where
  disposed : Bool
  requestId : Nat
  requestHandlers : List Nat
  openDocumentVersions : List (String × Nat)
  tsserverProcess : Option Proc
  startPromise : Option Unit
deriving DecidableEq

/-- `ensureProcessStarted` from `tsBackend.ts`.  The boolean reports
whether a fresh `startProcess` was triggered; a successful start installs
a connected, live process handle.  (The `catch` that clears
`startPromise` and rethrows on spawn failure is not modelled: the claims
below concern the success path.) -/
def ensureProcessStarted (s : PState) : PState × Bool :=
  if s.disposed then (s, false)
  else
    match s.startPromise with
    | some _ => (s, false)
    | none =>
      ({ s with startPromise := some (), tsserverProcess := some ⟨true, true⟩ }, true)

/-- `sendRawTsServerRequest` from `tsBackend.ts`, with the awaited
round-trip collapsed to one step: after `ensureProcessStarted`, a missing
or disconnected process resolves `null` immediately; otherwise the
request is registered under the next identifier, written to the channel,
and resolves with the environment-supplied outcome.  The returned boolean
reports whether a request was actually written. -/
def sendRawTsServerRequest (outcome : Option Nat) (s : PState) :
    Option Nat × PState × Bool :=
  let (s1, _) := ensureProcessStarted s
  match s1.tsserverProcess with
  | none => (none, s1, false)
  | some proc =>
    if proc.connected then
      (outcome, { s1 with requestId := s1.requestId + 1 }, true)
    else (none, s1, false)

/-- Observable outcome of a `dispose()` call. -/
structure DisposeOut where
  state : PState
  /-- Pending requests resolved (`resolve(undefined)`), in table order. -/
  resolutions : List (Nat × Option Nat)
  /-- Whether the process was killed. -/
  killed : Bool
  /-- Whether the final close-all `updateOpen` request was written. -/
  sentCloseAll : Bool
deriving DecidableEq

/-- `dispose` from `tsBackend.ts`: set `disposed`, best-effort close-all
for the tracked files, resolve and clear all pending requests, kill the
process when it is still alive, and clear the handle and start promise. -/
def dispose (closeAllOutcome : Option Nat) (s : PState) : DisposeOut :=
  let s1 : PState := { s with disposed := true }
  let trackedFiles := s1.openDocumentVersions.map Prod.fst
  let s2 : PState := { s1 with openDocumentVersions := [] }
  let (s3, sentCloseAll) :=
    if trackedFiles.isEmpty then (s2, false)
    else
      let (_, s', sent) := sendRawTsServerRequest closeAllOutcome s2
      (s', sent)
  let resolutions := s3.requestHandlers.map (fun id => (id, (none : Option Nat)))
  let s4 : PState := { s3 with requestHandlers := [] }
  let killed :=
    match s4.tsserverProcess with
    | some proc => proc.alive
    | none => false
  let s5 : PState := { s4 with tsserverProcess := none, startPromise := none }
  { state := s5, resolutions := resolutions, killed := killed, sentCloseAll := sentCloseAll }

/-- Observable outcome of the `exit` handler. -/
structure ExitOut where
  state : PState
  /-- Pending requests resolved `null`, in table order. -/
  resolutions : List (Nat × Option Nat)
  /-- Whether the unexpected-exit warning was logged. -/
  warned : Bool
deriving DecidableEq

/-- The `exit` handler installed by `startProcess` in `tsBackend.ts`:
warn unless disposal caused the exit, clear the process handle and start
promise, resolve every pending request `null` and empty the table. -/
def handleExit (s : PState) : ExitOut :=
  { state :=
      { s with tsserverProcess := none, startPromise := none, requestHandlers := [] }
    resolutions := s.requestHandlers.map (fun id => (id, (none : Option Nat)))
    warned := !s.disposed }

end ProcessClient

/-! ## Backend selection (`createTsBackendClient`, `canStartTsgo`) -/

namespace Selector

/-- `TsBackendPreference` from `tsBackend.ts`. -/
inductive TsBackendPreference where
  | tsserver
  | tsgoLsp
  | auto
deriving DecidableEq

/-- Which concrete client class `createTsBackendClient` constructs. -/
inductive ClientKind where
  | tsgoLspClient
  | tsserverClient
deriving DecidableEq

/-- The `childProcess.spawnSync` result fields read by `canStartTsgo`. -/
structure SpawnSyncResult where
  error : Option String
  signal : Option String
  status : Option Int
deriving DecidableEq

/-- `canStartTsgo` from `tsBackend.ts`: the probe passes exactly when
`spawnSync` did not throw, reported no spawn error, no terminating signal
and exit status `0`. -/
def canStartTsgo (probe : Except String SpawnSyncResult) : Bool :=
  match probe with
  | Except.error _ => false
  | Except.ok result =>
    result.error.isNone && result.signal.isNone && result.status == some 0

/-- The client-construction decision of `createTsBackendClient` from
`tsBackend.ts` (an absent preference defaults to `'tsserver'`). -/
def createTsBackendClient (preference : Option TsBackendPreference)
    (probe : Except String SpawnSyncResult) : ClientKind :=
  match preference.getD TsBackendPreference.tsserver with
  | TsBackendPreference.tsgoLsp => ClientKind.tsgoLspClient
  | TsBackendPreference.auto =>
    if canStartTsgo probe then ClientKind.tsgoLspClient else ClientKind.tsserverClient
  | TsBackendPreference.tsserver => ClientKind.tsserverClient

end Selector

/-! ## The warmup task (`ensureTsBackendWarmup`)

`tsBackendWarmupTask ??= warmupTsBackend(connection, tsBackend)` in the
server bootstrap: a nullable memoized task handle.  Tasks are identified
by a spawn counter; `task` holds the memoized handle.  The single-threaded
event loop makes the null-check-and-assign atomic, so concurrent callers
behave like the sequential runs modelled here. -/

namespace Warmup

/-- The memoization cell plus an instrumentation counter of how many times
`warmupTsBackend` was actually started. -/
structure WState where
  task : Option Nat
  spawns : Nat
deriving DecidableEq

/-- `ensureTsBackendWarmup` from the server bootstrap: start the warmup
once, then hand every caller the memoized task. -/
def ensureTsBackendWarmup (s : WState) : Nat × WState :=
  match s.task with
  | some t => (t, s)
  | none => (s.spawns, { task := some s.spawns, spawns := s.spawns + 1 })

/-- `n` successive `ensureTsBackendWarmup` calls, collecting the task each
caller receives. -/
def calls : Nat → WState → List Nat × WState
  | 0, s => ([], s)
  | n + 1, s =>
    let (t, s1) := ensureTsBackendWarmup s
    let (ts, s2) := calls n s1
    (t :: ts, s2)

end Warmup

/-! ## Theorems -/

/-- Helper: every `dispose` run leaves the same terminal state shape,
whatever branches were taken (only the request counter varies). -/
theorem dispose_state_shape (o : Option Nat) (s : ProcessClient.PState) :
    ∃ rid, (ProcessClient.dispose o s).state
      = ⟨true, rid, [], [], none, none⟩ := by
  rcases s with ⟨d, rid, rh, odv, proc, sp⟩
  cases odv with
  | nil =>
    exact ⟨rid, rfl⟩
  | cons e rest =>
    cases proc with
    | none =>
      cases sp <;> exact ⟨rid, rfl⟩
    | some p =>
      cases hc : p.connected <;>
        cases sp <;>
          simp [ProcessClient.dispose, ProcessClient.sendRawTsServerRequest,
            ProcessClient.ensureProcessStarted, hc]

/-- C10: after `dispose()` has resolved, the client stays down: the
disposed flag is set, the process handle, start promise, pending table and
document records are cleared; a subsequent `sendRawTsServerRequest`
resolves `null` immediately without writing a request, changing state or
respawning (`ensureProcessStarted` is a no-op); and a second `dispose()`
changes nothing, resolves nothing, kills nothing and sends nothing. -/
theorem c10_disposed_client_stays_down :
    ∀ (s : ProcessClient.PState) (o1 o2 o3 : Option Nat),
      (ProcessClient.dispose o1 s).state.disposed = true
      ∧ (ProcessClient.dispose o1 s).state.tsserverProcess = none
      ∧ (ProcessClient.dispose o1 s).state.startPromise = none
      ∧ (ProcessClient.dispose o1 s).state.requestHandlers = []
      ∧ (ProcessClient.dispose o1 s).state.openDocumentVersions = []
      ∧ ProcessClient.sendRawTsServerRequest o2 (ProcessClient.dispose o1 s).state
          = (none, (ProcessClient.dispose o1 s).state, false)
      ∧ ProcessClient.ensureProcessStarted (ProcessClient.dispose o1 s).state
          = ((ProcessClient.dispose o1 s).state, false)
      ∧ ProcessClient.dispose o3 (ProcessClient.dispose o1 s).state
          = { state := (ProcessClient.dispose o1 s).state, resolutions := []
              killed := false, sentCloseAll := false } := by
  intro s o1 o2 o3
  obtain ⟨rid, hshape⟩ := dispose_state_shape o1 s
  rw [hshape]
  exact ⟨rfl, rfl, rfl, rfl, rfl, rfl, rfl, rfl⟩

/-- C5: on process exit, every pending request is resolved `null` (in
table order), the table is emptied, the process handle and start promise
are cleared so that the next `ensureProcessStarted` respawns exactly when
the client is not disposed, and the warning is logged exactly when the
exit was not caused by disposal. -/
theorem c5_unexpected_exit_recovery :
    ∀ s : ProcessClient.PState,
      (ProcessClient.handleExit s).resolutions
          = s.requestHandlers.map (fun id => (id, (none : Option Nat)))
      ∧ (ProcessClient.handleExit s).state.requestHandlers = []
      ∧ (ProcessClient.handleExit s).state.tsserverProcess = none
      ∧ (ProcessClient.handleExit s).state.startPromise = none
      ∧ (ProcessClient.handleExit s).warned = !s.disposed
      ∧ (ProcessClient.ensureProcessStarted (ProcessClient.handleExit s).state).2
          = !s.disposed := by
  intro s
  refine ⟨rfl, rfl, rfl, rfl, rfl, ?_⟩
  by_cases h : s.disposed <;>
    simp [ProcessClient.ensureProcessStarted, ProcessClient.handleExit, h]

/-- C7: in automatic mode the sidecar-with-fallback client is constructed
exactly when the synchronous `--version` probe passes, and the probe
passes exactly when `spawnSync` neither threw nor reported a spawn error,
a terminating signal, or a non-zero exit status. -/
theorem c7_auto_mode_probe_selection :
    ∀ probe : Except String Selector.SpawnSyncResult,
      (Selector.createTsBackendClient (some Selector.TsBackendPreference.auto) probe
          = Selector.ClientKind.tsgoLspClient
        ↔ Selector.canStartTsgo probe = true)
      ∧ (Selector.canStartTsgo probe = true
        ↔ ∃ r, probe = Except.ok r
            ∧ r.error = none ∧ r.signal = none ∧ r.status = some 0)
      ∧ (Selector.canStartTsgo probe = false →
        Selector.createTsBackendClient (some Selector.TsBackendPreference.auto) probe
          = Selector.ClientKind.tsserverClient) := by
  intro probe
  refine ⟨?_, ?_, ?_⟩
  · by_cases h : Selector.canStartTsgo probe = true <;>
      simp [Selector.createTsBackendClient, h] at h ⊢
  · cases probe with
    | error e => simp [Selector.canStartTsgo]
    | ok r =>
      simp [Selector.canStartTsgo, Option.isNone_iff_eq_none, and_assoc]
  · intro h
    simp [Selector.createTsBackendClient, h]

/-- Helper: once the warmup task handle is set, further
`ensureTsBackendWarmup` calls return it and change nothing. -/
theorem warmup_calls_memoized (t m : Nat) :
    ∀ n, Warmup.calls n ⟨some t, m⟩ = (List.replicate n t, ⟨some t, m⟩) := by
  intro n
  induction n with
  | zero => rfl
  | succ n ih =>
    simp [Warmup.calls, Warmup.ensureTsBackendWarmup, ih, List.replicate_succ]

/-- C9: the warmup task is a memoized single shot — over any positive
number of `ensureTsBackendWarmup` calls starting from an unset handle, the
priming work is started exactly once and every caller receives that same
task. -/
theorem c9_warmup_single_shot :
    ∀ k n : Nat,
      Warmup.calls (n + 1) ⟨none, k⟩
        = (List.replicate (n + 1) k, ⟨some k, k + 1⟩) := by
  intro k n
  simp [Warmup.calls, Warmup.ensureTsBackendWarmup, warmup_calls_memoized,
    List.replicate_succ]

/-- C6 counterexample: a uniform request method delegated through
`callFallback` (here `collectExtractProps`) forwards the fallback's
promise unchanged, so a fallback rejection reaches the caller as a thrown
error, contradicting the claim that no backend failure ever propagates. -/
theorem c6_counterexample_callFallback_propagates :
    Tsgo.collectExtractProps (some (Except.error "tsserver fallback crashed"))
      = Except.error "tsserver fallback crashed" := rfl

/-- C6 (amended): the guarded request paths never propagate a failure —
`sendLspRequest` catches every rejection of its pipeline and resolves
`null`, and `callFallbackValue` / `callFallbackProjectInfo` catch a
fallback rejection and resolve `undefined` / `null`. -/
theorem c6_guarded_paths_never_throw :
    (∀ (T : Type) (env : Tsgo.LspRequestEnv T),
      ∃ v, Tsgo.sendLspRequest env = Except.ok v)
    ∧ (∀ (α : Type) (fb : Option (Except String (Option α))),
      ∃ v, Tsgo.callFallbackValueE fb = Except.ok v)
    ∧ (∀ fb, ∃ v, Tsgo.callFallbackProjectInfoE fb = Except.ok v) := by
  refine ⟨?_, ?_, ?_⟩
  · intro T env
    cases h : Tsgo.sendLspRequestBody env with
    | ok v => exact ⟨v, by simp [Tsgo.sendLspRequest, h]⟩
    | error e => exact ⟨none, by simp [Tsgo.sendLspRequest, h]⟩
  · intro α fb
    rcases fb with _ | (e | v)
    · exact ⟨none, rfl⟩
    · exact ⟨none, rfl⟩
    · exact ⟨v, rfl⟩
  · intro fb
    rcases fb with _ | (e | v)
    · exact ⟨none, rfl⟩
    · exact ⟨none, rfl⟩
    · exact ⟨v, rfl⟩

/-- Helper: `Map.set` followed by `Map.get` of the same key. -/
theorem docsync_lookup_setVersion (m : DocSync.VersionMap) (k : String) (v : Nat) :
    DocSync.lookup (DocSync.setVersion m k v) k = some v := by
  induction m with
  | nil => simp [DocSync.setVersion, DocSync.lookup]
  | cons e rest ih =>
    by_cases h : e.1 = k <;> simp [DocSync.setVersion, DocSync.lookup, h, ih]

/-- Helper: `Map.delete` followed by `Map.get` of the same key. -/
theorem docsync_lookup_remove (m : DocSync.VersionMap) (k : String) :
    DocSync.lookup (DocSync.remove m k) k = none := by
  induction m with
  | nil => simp [DocSync.remove, DocSync.lookup]
  | cons e rest ih =>
    by_cases h : e.1 = k <;> simp [DocSync.remove, DocSync.lookup, h, ih] at ih ⊢
    · exact ih
    · simp [h, ih]

/-- C3: per-version idempotence of the sidecar document synchronizer.
For a connected sidecar and a supported `file`-scheme document: a sync at
an unchanged tracked version emits nothing; the first sync emits exactly
one `didOpen` with full text and records the version; a changed version
emits exactly one replace-all `didChange` and re-records the version;
closing a tracked document emits exactly one `didClose` and removes the
record; closing an untracked document emits nothing; and an immediately
repeated sync of the same document always emits nothing. -/
theorem c3_document_sync_idempotent_per_version :
    ∀ (m : DocSync.VersionMap) (doc : DocSync.Doc),
      doc.scheme = "file" →
      supportsTsgoFile (normalizeFileName doc.fsPath) = true →
      let fileName := normalizeFileName doc.fsPath
      (DocSync.lookup m fileName = some doc.version →
        DocSync.syncOpenDocument true m doc = (m, []))
      ∧ (DocSync.lookup m fileName = none →
        DocSync.syncOpenDocument true m doc
          = (DocSync.setVersion m fileName doc.version,
             [DocSync.Notif.didOpen fileName
                (languageIdForFile fileName doc.languageId) doc.version doc.text])
        ∧ DocSync.lookup (DocSync.setVersion m fileName doc.version) fileName
            = some doc.version)
      ∧ (∀ trackedVersion,
        DocSync.lookup m fileName = some trackedVersion →
        trackedVersion ≠ doc.version →
        DocSync.syncOpenDocument true m doc
          = (DocSync.setVersion m fileName doc.version,
             [DocSync.Notif.didChange fileName doc.version doc.text]))
      ∧ (∀ trackedVersion,
        DocSync.lookup m fileName = some trackedVersion →
        DocSync.syncClosedDocument true m doc.scheme doc.fsPath
          = (DocSync.remove m fileName, [DocSync.Notif.didClose fileName])
        ∧ DocSync.lookup (DocSync.remove m fileName) fileName = none)
      ∧ (DocSync.lookup m fileName = none →
        DocSync.syncClosedDocument true m doc.scheme doc.fsPath = (m, []))
      ∧ DocSync.syncOpenDocument true (DocSync.syncOpenDocument true m doc).1 doc
          = ((DocSync.syncOpenDocument true m doc).1, []) := by
  intro m doc hscheme hsup fileName
  refine ⟨?_, ?_, ?_, ?_, ?_, ?_⟩
  · intro htracked
    simp [DocSync.syncOpenDocument, hscheme, hsup, htracked, fileName]
  · intro huntracked
    refine ⟨?_, docsync_lookup_setVersion m fileName doc.version⟩
    simp [DocSync.syncOpenDocument, hscheme, hsup, huntracked, fileName]
  · intro trackedVersion htracked hne
    simp [DocSync.syncOpenDocument, hscheme, hsup, htracked, hne, fileName]
  · intro trackedVersion htracked
    refine ⟨?_, docsync_lookup_remove m fileName⟩
    simp [DocSync.syncClosedDocument, hscheme, htracked, fileName]
  · intro huntracked
    simp [DocSync.syncClosedDocument, hscheme, huntracked, fileName]
  · cases htracked : DocSync.lookup m fileName with
    | none =>
      have h1 : DocSync.syncOpenDocument true m doc
          = (DocSync.setVersion m fileName doc.version,
             [DocSync.Notif.didOpen fileName
                (languageIdForFile fileName doc.languageId) doc.version doc.text]) := by
        simp [DocSync.syncOpenDocument, hscheme, hsup, htracked, fileName]
      rw [h1]
      simp [DocSync.syncOpenDocument, hscheme, hsup, fileName,
        docsync_lookup_setVersion m fileName doc.version]
    | some trackedVersion =>
      by_cases hne : trackedVersion = doc.version
      · subst hne
        have h1 : DocSync.syncOpenDocument true m doc = (m, []) := by
          simp [DocSync.syncOpenDocument, hscheme, hsup, htracked, fileName]
        rw [h1]
        exact h1
      · have h1 : DocSync.syncOpenDocument true m doc
            = (DocSync.setVersion m fileName doc.version,
               [DocSync.Notif.didChange fileName doc.version doc.text]) := by
          simp [DocSync.syncOpenDocument, hscheme, hsup, htracked, hne, fileName]
        rw [h1]
        simp [DocSync.syncOpenDocument, hscheme, hsup, fileName,
          docsync_lookup_setVersion m fileName doc.version]

/-- C1 counterexample: for a supported file, the sidecar returns a
NON-empty document-highlight list, yet because neither the host nor the
disk can provide the file's text (needed to convert LSP ranges to text
spans) the secondary client is still invoked — contradicting "whenever
the sidecar returns a non-empty result, the secondary client is never
invoked". -/
theorem c1_counterexample_highlights_fallback_despite_nonempty :
    (Tsgo.getDocumentHighlights
        { sidecarResponse := some [{ range := ⟨⟨0, 0⟩, ⟨0, 1⟩⟩, kind := some 2 }]
          openDocText := none
          diskText := none
          fallback := some (Except.ok (some [])) }
        "/a/b.ts" 0).fallbackInvoked = true
    ∧ supportsTsgoFile "/a/b.ts" = true
    ∧ ([{ range := ⟨⟨0, 0⟩, ⟨0, 1⟩⟩, kind := some 2 }] :
        List Tsgo.DocumentHighlight) ≠ [] := by
  refine ⟨?_, by decide, by decide⟩
  have hsup : supportsTsgoFile "/a/b.ts" = true := by decide
  simp [Tsgo.getDocumentHighlights, hsup, Tsgo.getFileText]

/-- C1 (amended): cross-cutting requests on the sidecar client for a
supported file attempt the primary (sidecar / local) path first; the
secondary client is invoked exactly when that path produced nothing
usable — an absent or empty hover display for `getQuickInfoAtPosition`,
an absent or empty resolution for `resolveModuleName`, and, for
`getDocumentHighlights`, an absent or empty highlight list OR an
unobtainable file text (without which the non-empty sidecar result cannot
be converted and the secondary client is consulted instead); in each
non-empty primary case the secondary client is never invoked and the
primary result is returned. -/
theorem c1_cross_cutting_sidecar_first :
    ∀ fileName : String, supportsTsgoFile fileName = true →
      (∀ (env : Tsgo.HighlightsEnv) (pos : Nat),
        (Tsgo.getDocumentHighlights env fileName pos).sidecarAttempted = true)
      ∧ (∀ (env : Tsgo.HighlightsEnv) (pos : Nat)
          (response : List Tsgo.DocumentHighlight) (text : String),
        env.sidecarResponse = some response → response ≠ [] →
        Tsgo.getFileText env.openDocText env.diskText = some text →
        Tsgo.getDocumentHighlights env fileName pos
          = { result := some
                [{ fileName := fileName
                   highlightSpans := response.map (fun item =>
                     { textSpan := rangeToTextSpan text item.range
                       kind := documentHighlightKindToTs item.kind }) }]
              sidecarAttempted := true
              fallbackInvoked := false })
      ∧ (∀ (env : Tsgo.HighlightsEnv) (pos : Nat),
        (env.sidecarResponse = none ∨ env.sidecarResponse = some [] ∨
          Tsgo.getFileText env.openDocText env.diskText = none) →
        (Tsgo.getDocumentHighlights env fileName pos).fallbackInvoked = true
        ∧ (Tsgo.getDocumentHighlights env fileName pos).result
            = Tsgo.callFallbackValue env.fallback)
      ∧ (∀ (env : Tsgo.QuickInfoEnv) (rs : HoverReadiness.State) (d : String),
        hoverToDisplayString env.sidecarHover = some d → d ≠ "" →
        (Tsgo.getQuickInfoAtPosition env fileName rs).result = some d
        ∧ (Tsgo.getQuickInfoAtPosition env fileName rs).fallbackInvoked = false
        ∧ (Tsgo.getQuickInfoAtPosition env fileName rs).sidecarAttempted = true)
      ∧ (∀ (env : Tsgo.QuickInfoEnv) (rs : HoverReadiness.State),
        (hoverToDisplayString env.sidecarHover = none ∨
          hoverToDisplayString env.sidecarHover = some "") →
        (Tsgo.getQuickInfoAtPosition env fileName rs).fallbackInvoked = true
        ∧ (Tsgo.getQuickInfoAtPosition env fileName rs).result
            = Tsgo.callFallbackValue env.fallback)
      ∧ (∀ (env : Tsgo.ResolveModuleEnv) (r : String),
        env.resolvedModule.map replaceBackslashes = some r → r ≠ "" →
        (Tsgo.resolveModuleName env fileName).result = some r
        ∧ (Tsgo.resolveModuleName env fileName).fallbackInvoked = false
        ∧ (Tsgo.resolveModuleName env fileName).sidecarAttempted = true)
      ∧ (∀ env : Tsgo.ResolveModuleEnv,
        (env.resolvedModule.map replaceBackslashes = none ∨
          env.resolvedModule.map replaceBackslashes = some "") →
        (Tsgo.resolveModuleName env fileName).fallbackInvoked = true
        ∧ (Tsgo.resolveModuleName env fileName).result
            = Tsgo.callFallbackValue env.fallback) := by
  intro fileName hsup
  refine ⟨?_, ?_, ?_, ?_, ?_, ?_, ?_⟩
  · intro env pos
    simp only [Tsgo.getDocumentHighlights, hsup, if_true]
    rcases env.sidecarResponse with _ | response
    · rfl
    · by_cases hlen : response.length ≠ 0 <;> simp [hlen]
      rcases Tsgo.getFileText env.openDocText env.diskText with _ | text <;> rfl
  · intro env pos response text hresp hne htext
    simp [Tsgo.getDocumentHighlights, hsup, hresp, htext,
      List.length_eq_zero, hne]
  · intro env pos hempty
    rcases hempty with h | h | h
    · simp [Tsgo.getDocumentHighlights, hsup, h]
    · simp [Tsgo.getDocumentHighlights, hsup, h]
    · rcases hresp : env.sidecarResponse with _ | response
      · simp [Tsgo.getDocumentHighlights, hsup, hresp]
      · by_cases hlen : response.length = 0
        · simp [Tsgo.getDocumentHighlights, hsup, hresp, hlen]
        · simp [Tsgo.getDocumentHighlights, hsup, hresp, hlen, h]
  · intro env rs d hd hne
    simp [Tsgo.getQuickInfoAtPosition, hsup, hd, hne]
  · intro env rs hempty
    rcases hempty with h | h <;>
      simp [Tsgo.getQuickInfoAtPosition, hsup, h]
  · intro env r hr hne
    simp [Tsgo.resolveModuleName, hsup, hr, hne]
  · intro env hempty
    rcases hempty with h | h <;>
      simp [Tsgo.resolveModuleName, hsup, h]

/-- C8: config resolution of `getProjectInfo` on the sidecar client.  The
two upward walks produce at most one `tsconfig.json` and one
`jsconfig.json` candidate; among candidates whose directory contains the
file, the one with the longest (deepest) containing directory wins, the
`tsconfig.json` candidate winning ties; with a single candidate that one
wins; with no candidate the lookup yields nothing and `getProjectInfo`
falls back to the secondary client's project-info lookup, otherwise the
fallback is never consulted.  The final conjunct grounds "deepest
ancestor": a directory containing a path is never longer than the path,
so among nested containing directories the deeper one is the longer
string. -/
theorem c8_project_info_config_resolution :
    (∀ (fe : String → Bool) (fb : Option (Except String (Option String)))
       (f t j : String),
      (findConfigFile fe (posixDirname (normalizeFileName f)) "tsconfig.json" = some t →
       findConfigFile fe (posixDirname (normalizeFileName f)) "jsconfig.json" = some j →
       isFileInDirectory (normalizeFileName f) (posixDirname (normalizeFileName t)) = true →
       isFileInDirectory (normalizeFileName f) (posixDirname (normalizeFileName j)) = true →
       findClosestConfig fe f
         = some (if (posixDirname (normalizeFileName j)).length
                     ≤ (posixDirname (normalizeFileName t)).length
                 then normalizeFileName t else normalizeFileName j))
      ∧ (findConfigFile fe (posixDirname (normalizeFileName f)) "tsconfig.json" = some t →
         findConfigFile fe (posixDirname (normalizeFileName f)) "jsconfig.json" = none →
         isFileInDirectory (normalizeFileName f) (posixDirname (normalizeFileName t)) = true →
         findClosestConfig fe f = some (normalizeFileName t))
      ∧ (findConfigFile fe (posixDirname (normalizeFileName f)) "tsconfig.json" = none →
         findConfigFile fe (posixDirname (normalizeFileName f)) "jsconfig.json" = some j →
         isFileInDirectory (normalizeFileName f) (posixDirname (normalizeFileName j)) = true →
         findClosestConfig fe f = some (normalizeFileName j))
      ∧ (findConfigFile fe (posixDirname (normalizeFileName f)) "tsconfig.json" = none →
         findConfigFile fe (posixDirname (normalizeFileName f)) "jsconfig.json" = none →
         findClosestConfig fe f = none)
      ∧ (findClosestConfig fe (normalizeFileName f) = none →
         Tsgo.getProjectInfo fe fb f = (Tsgo.callFallbackProjectInfo fb, true))
      ∧ (∀ c, findClosestConfig fe (normalizeFileName f) = some c →
         Tsgo.getProjectInfo fe fb f = (some c, false)))
    ∧ (∀ a b : String, isFileInDirectory a b = true →
       (stripTrailingSlashes (normalizeFileName b)).length ≤ (normalizeFileName a).length) := by
  constructor
  · intro fe fb f t j
    refine ⟨?_, ?_, ?_, ?_, ?_, ?_⟩
    · intro ht hj hct hcj
      by_cases hlen : (posixDirname (normalizeFileName j)).length
          ≤ (posixDirname (normalizeFileName t)).length <;>
        simp [findClosestConfig, ht, hj, hct, hcj,
          sortByKeyDesc, insertByKeyDesc, hlen]
    · intro ht hj hct
      simp [findClosestConfig, ht, hj, hct, sortByKeyDesc, insertByKeyDesc]
    · intro ht hj hcj
      simp [findClosestConfig, ht, hj, hcj, sortByKeyDesc, insertByKeyDesc]
    · intro ht hj
      simp [findClosestConfig, ht, hj]
    · intro hnone
      simp [Tsgo.getProjectInfo, hnone]
    · intro c hsome
      simp [Tsgo.getProjectInfo, hsome]
  · intro a b h
    simp only [isFileInDirectory, Bool.or_eq_true, decide_eq_true_eq] at h
    rcases h with h | h
    · rw [h]
    · have hpre : ((stripTrailingSlashes (normalizeFileName b) ++ "/").data).IsPrefix
          (normalizeFileName a).data := by
        simpa [strStartsWith, List.isPrefixOf_iff_prefix] using h
      have hlen := hpre.length_le
      rw [String.data_append, List.length_append] at hlen
      have hone : ("/" : String).data.length = 1 := rfl
      change (stripTrailingSlashes (normalizeFileName b)).data.length
        ≤ (normalizeFileName a).data.length
      omega

/-- Helper: one readiness step turns the ready flag on exactly for a hover
event, and never turns it off. -/
theorem hover_step_ready (s : HoverReadiness.State) (e : HoverReadiness.Event) :
    (HoverReadiness.step s e).hoverReady
      = (s.hoverReady || (HoverReadiness.Event.hover == e)) := by
  cases e with
  | hover =>
    by_cases h : s.hoverReady
    · simp [HoverReadiness.step, HoverReadiness.markHoverReady, h]
    · simp [HoverReadiness.step, HoverReadiness.markHoverReady,
        HoverReadiness.resolveHoverReadyWaiters, h]
      split_ifs <;> simp
  | register t =>
    simp only [HoverReadiness.step, HoverReadiness.awaitReadyForHover]
    split_ifs <;> simp_all
  | fire w =>
    simp only [HoverReadiness.step, HoverReadiness.fireWaiterTimeout]
    split_ifs <;> simp
  | dispose =>
    simp only [HoverReadiness.step, HoverReadiness.disposeReadiness,
      HoverReadiness.resolveHoverReadyWaiters]
    split_ifs <;> simp

/-- Helper: over a whole run, the ready flag is on iff it was on initially
or some hover event occurred. -/
theorem hover_run_ready (events : List HoverReadiness.Event) :
    ∀ s : HoverReadiness.State,
      (HoverReadiness.run s events).hoverReady
        = (s.hoverReady || events.contains HoverReadiness.Event.hover) := by
  induction events with
  | nil => intro s; simp [HoverReadiness.run]
  | cons e es ih =>
    intro s
    show (HoverReadiness.run (HoverReadiness.step s e) es).hoverReady = _
    rw [ih (HoverReadiness.step s e), hover_step_ready]
    simp only [List.contains_cons, Bool.or_assoc]

/-- Helper: `resolveHoverReadyWaiters` empties the waiter set, preserves
the flag fields and delivers `ready` to every waiter. -/
theorem resolve_waiters_spec (ready : Bool) (s : HoverReadiness.State) :
    (HoverReadiness.resolveHoverReadyWaiters ready s).waiters = []
    ∧ (HoverReadiness.resolveHoverReadyWaiters ready s).hoverReady = s.hoverReady
    ∧ (HoverReadiness.resolveHoverReadyWaiters ready s).disposed = s.disposed
    ∧ ∀ w ∈ s.waiters,
        (w, ready) ∈ (HoverReadiness.resolveHoverReadyWaiters ready s).resolutions := by
  by_cases hw : s.waiters = []
  · simp [HoverReadiness.resolveHoverReadyWaiters, hw]
  · have hne : ¬s.waiters.isEmpty = true := fun hh => hw (List.isEmpty_iff.mp hh)
    simp only [HoverReadiness.resolveHoverReadyWaiters, if_neg hne]
    refine ⟨by trivial, by trivial, by trivial, ?_⟩
    intro w hw2
    simp only [List.mem_append, List.mem_map]
    exact Or.inr ⟨w, hw2, rfl⟩

/-- C4: the hover-readiness protocol.  (1) The ready flag never reverts;
(2) over any run it is set iff a hover request has executed — the
transition happens on the first hover and only there; (3) that first
hover releases every registered waiter with `true` and empties the waiter
set; (4) a waiter whose timeout fires first resolves `false` and is
deregistered; (5) an `awaitReadyForHover` call with a non-positive
timeout resolves `false` immediately without registering; (6) disposal
resolves every outstanding waiter with `false`; (7) the readiness
transition performed by `getQuickInfoAtPosition` is `markHoverReady`
regardless of the environment, i.e. independent of whether the hover
produced a result. -/
theorem c4_hover_readiness_protocol :
    (∀ (s : HoverReadiness.State) (e : HoverReadiness.Event),
      s.hoverReady = true → (HoverReadiness.step s e).hoverReady = true)
    ∧ (∀ (s : HoverReadiness.State) (events : List HoverReadiness.Event),
      (HoverReadiness.run s events).hoverReady
        = (s.hoverReady || events.contains HoverReadiness.Event.hover))
    ∧ (∀ s : HoverReadiness.State, s.hoverReady = false →
      (HoverReadiness.step s HoverReadiness.Event.hover).hoverReady = true
      ∧ (HoverReadiness.step s HoverReadiness.Event.hover).waiters = []
      ∧ ∀ w ∈ s.waiters,
          (w, true) ∈ (HoverReadiness.step s HoverReadiness.Event.hover).resolutions)
    ∧ (∀ (s : HoverReadiness.State) (w : Nat), s.waiters.Nodup → w ∈ s.waiters →
      (w, false) ∈ (HoverReadiness.step s (HoverReadiness.Event.fire w)).resolutions
      ∧ w ∉ (HoverReadiness.step s (HoverReadiness.Event.fire w)).waiters)
    ∧ (∀ (s : HoverReadiness.State) (t : Int),
      s.hoverReady = false → s.disposed = false → t ≤ 0 →
      HoverReadiness.step s (HoverReadiness.Event.register t)
        = { s with resolutions := s.resolutions ++ [(s.nextWaiter, false)]
                   nextWaiter := s.nextWaiter + 1 })
    ∧ (∀ s : HoverReadiness.State,
      (HoverReadiness.step s HoverReadiness.Event.dispose).waiters = []
      ∧ (HoverReadiness.step s HoverReadiness.Event.dispose).disposed = true
      ∧ ∀ w ∈ s.waiters,
          (w, false) ∈ (HoverReadiness.step s HoverReadiness.Event.dispose).resolutions)
    ∧ (∀ (env : Tsgo.QuickInfoEnv) (fileName : String) (rs : HoverReadiness.State),
      (Tsgo.getQuickInfoAtPosition env fileName rs).readyState
        = HoverReadiness.markHoverReady rs) := by
  refine ⟨?_, ?_, ?_, ?_, ?_, ?_, ?_⟩
  · intro s e h
    rw [hover_step_ready, h, Bool.true_or]
  · intro s events
    exact hover_run_ready events s
  · intro s h
    have hstep : HoverReadiness.step s HoverReadiness.Event.hover
        = HoverReadiness.resolveHoverReadyWaiters true { s with hoverReady := true } := by
      simp [HoverReadiness.step, HoverReadiness.markHoverReady, h]
    refine ⟨by rw [hover_step_ready, h]; rfl, ?_, ?_⟩
    · rw [hstep]
      exact (resolve_waiters_spec true _).1
    · intro w hw
      rw [hstep]
      exact (resolve_waiters_spec true _).2.2.2 w hw
  · intro s w hnd hw
    simp only [HoverReadiness.step, HoverReadiness.fireWaiterTimeout, hw, if_pos]
    refine ⟨by simp, ?_⟩
    intro hmem
    exact (hnd.mem_erase_iff.mp hmem).1 rfl
  · intro s t h1 h2 h3
    simp [HoverReadiness.step, HoverReadiness.awaitReadyForHover, h1, h2, h3]
  · intro s
    show (HoverReadiness.resolveHoverReadyWaiters false { s with disposed := true }).waiters = []
      ∧ (HoverReadiness.resolveHoverReadyWaiters false { s with disposed := true }).disposed = true
      ∧ _
    refine ⟨(resolve_waiters_spec false _).1, ?_, ?_⟩
    · rw [(resolve_waiters_spec false _).2.2.1]
    · intro w hw
      exact (resolve_waiters_spec false _).2.2.2 w hw
  · intro env fileName rs
    simp only [Tsgo.getQuickInfoAtPosition]
    split_ifs
    · cases hoverToDisplayString env.sidecarHover with
      | none => rfl
      | some d => by_cases hd : d = "" <;> simp [hd]
    · rfl

/-- Helper: `countKey` distributes over trace append. -/
theorem corr_countKey_append (id : Nat) (t u : List (Nat × Option Nat)) :
    Correlator.countKey id (t ++ u)
      = Correlator.countKey id t + Correlator.countKey id u := by
  simp [Correlator.countKey, List.filter_append]

/-- Helper: `countKey` of a singleton trace entry. -/
theorem corr_countKey_single (id rid : Nat) (v : Option Nat) :
    Correlator.countKey id [(rid, v)] = if rid = id then 1 else 0 := by
  by_cases h : rid = id <;> simp [Correlator.countKey, h]

/-- Helper: once an identifier is out of the pending table, no later event
re-adds it or delivers another resolution to it. -/
theorem corr_done_step (id : Nat) (s : Correlator.State) (e : Correlator.Event)
    (hm : id ∉ s.pending) :
    id ∉ (Correlator.step s e).pending
    ∧ Correlator.countKey id (Correlator.step s e).trace
        = Correlator.countKey id s.trace := by
  have key : ∀ (rid : Nat) (v : Option Nat), rid ∈ s.pending →
      id ∉ s.pending.erase rid
      ∧ Correlator.countKey id (s.trace ++ [(rid, v)])
          = Correlator.countKey id s.trace := by
    intro rid v hr
    have hne : rid ≠ id := fun hh => hm (hh ▸ hr)
    constructor
    · intro hmem
      exact hm (List.mem_of_mem_erase hmem)
    · rw [corr_countKey_append, corr_countKey_single, if_neg hne]
      omega
  cases e with
  | response rid success body =>
    by_cases hr : rid ∈ s.pending
    · simpa [Correlator.step, hr] using key rid _ hr
    · have hs : Correlator.step s (Correlator.Event.response rid success body) = s := by
        simp [Correlator.step, hr]
      rw [hs]
      exact ⟨hm, rfl⟩
  | timeout rid =>
    by_cases hr : rid ∈ s.pending
    · simpa [Correlator.step, hr] using key rid none hr
    · have hs : Correlator.step s (Correlator.Event.timeout rid) = s := by
        simp [Correlator.step, hr]
      rw [hs]
      exact ⟨hm, rfl⟩

/-- Helper: the resolved state (removed, resolved exactly once) persists
through any further run. -/
theorem corr_done_run (id : Nat) (events : List Correlator.Event) :
    ∀ s : Correlator.State, id ∉ s.pending →
      id ∉ (Correlator.run s events).pending
      ∧ Correlator.countKey id (Correlator.run s events).trace
          = Correlator.countKey id s.trace := by
  induction events with
  | nil => intro s hm; exact ⟨hm, rfl⟩
  | cons e es ih =>
    intro s hm
    have hstep := corr_done_step id s e hm
    have hrun := ih (Correlator.step s e) hstep.1
    exact ⟨hrun.1, hrun.2.trans hstep.2⟩

/-- Helper: the two-phase invariant — an identifier is either still
pending with no resolution delivered, or removed with exactly one
resolution delivered — is preserved by every event, and the pending table
stays duplicate-free. -/
theorem corr_inv_step (id : Nat) (s : Correlator.State) (e : Correlator.Event)
    (hnd : s.pending.Nodup)
    (h : (id ∈ s.pending ∧ Correlator.countKey id s.trace = 0)
       ∨ (id ∉ s.pending ∧ Correlator.countKey id s.trace = 1)) :
    (Correlator.step s e).pending.Nodup
    ∧ ((id ∈ (Correlator.step s e).pending
          ∧ Correlator.countKey id (Correlator.step s e).trace = 0)
       ∨ (id ∉ (Correlator.step s e).pending
          ∧ Correlator.countKey id (Correlator.step s e).trace = 1)) := by
  have hndStep : ∀ e2, (Correlator.step s e2).pending.Nodup := by
    intro e2
    cases e2 with
    | response rid success body =>
      by_cases hr : rid ∈ s.pending <;> simp [Correlator.step, hr, hnd, hnd.erase]
    | timeout rid =>
      by_cases hr : rid ∈ s.pending <;> simp [Correlator.step, hr, hnd, hnd.erase]
  refine ⟨hndStep e, ?_⟩
  rcases h with ⟨hmem, hcnt⟩ | ⟨hmem, hcnt⟩
  · -- still pending: a correlated event resolves it, others leave it alone
    have key : ∀ (rid : Nat) (v : Option Nat), rid ∈ s.pending →
        (id ∈ s.pending.erase rid
            ∧ Correlator.countKey id (s.trace ++ [(rid, v)]) = 0)
        ∨ (id ∉ s.pending.erase rid
            ∧ Correlator.countKey id (s.trace ++ [(rid, v)]) = 1) := by
      intro rid v hr
      by_cases hid : rid = id
      · subst hid
        refine Or.inr ⟨hnd.not_mem_erase, ?_⟩
        rw [corr_countKey_append, corr_countKey_single, if_pos rfl, hcnt]
      · refine Or.inl ⟨(List.mem_erase_of_ne (fun hh => hid hh.symm)).mpr hmem, ?_⟩
        rw [corr_countKey_append, corr_countKey_single, if_neg hid, hcnt]
    cases e with
    | response rid success body =>
      by_cases hr : rid ∈ s.pending
      · simpa [Correlator.step, hr] using key rid _ hr
      · have hs : Correlator.step s (Correlator.Event.response rid success body) = s := by
          simp [Correlator.step, hr]
        rw [hs]
        exact Or.inl ⟨hmem, hcnt⟩
    | timeout rid =>
      by_cases hr : rid ∈ s.pending
      · simpa [Correlator.step, hr] using key rid none hr
      · have hs : Correlator.step s (Correlator.Event.timeout rid) = s := by
          simp [Correlator.step, hr]
        rw [hs]
        exact Or.inl ⟨hmem, hcnt⟩
  · have hdone := corr_done_step id s e hmem
    exact Or.inr ⟨hdone.1, hdone.2.trans hcnt⟩

/-- Helper: run-level form of the two-phase invariant. -/
theorem corr_inv_run (id : Nat) (events : List Correlator.Event) :
    ∀ s : Correlator.State, s.pending.Nodup →
      ((id ∈ s.pending ∧ Correlator.countKey id s.trace = 0)
        ∨ (id ∉ s.pending ∧ Correlator.countKey id s.trace = 1)) →
      (Correlator.run s events).pending.Nodup
      ∧ ((id ∈ (Correlator.run s events).pending
            ∧ Correlator.countKey id (Correlator.run s events).trace = 0)
         ∨ (id ∉ (Correlator.run s events).pending
            ∧ Correlator.countKey id (Correlator.run s events).trace = 1)) := by
  induction events with
  | nil => intro s hnd h; exact ⟨hnd, h⟩
  | cons e es ih =>
    intro s hnd h
    have hstep := corr_inv_step id s e hnd h
    exact ih (Correlator.step s e) hstep.1 hstep.2

/-- Helper: a run containing the timeout event for a pending identifier
ends with that identifier removed and resolved exactly once. -/
theorem corr_run_resolved_of_timeout (id : Nat) (events : List Correlator.Event) :
    ∀ s : Correlator.State, s.pending.Nodup →
      ((id ∈ s.pending ∧ Correlator.countKey id s.trace = 0)
        ∨ (id ∉ s.pending ∧ Correlator.countKey id s.trace = 1)) →
      Correlator.Event.timeout id ∈ events →
      id ∉ (Correlator.run s events).pending
      ∧ Correlator.countKey id (Correlator.run s events).trace = 1 := by
  induction events with
  | nil => intro s _ _ hmem; exact absurd hmem (List.not_mem_nil _)
  | cons e es ih =>
    intro s hnd h hmem
    rcases List.mem_cons.mp hmem with heq | htail
    · -- the timeout fires now (or the identifier is already resolved):
      -- afterwards the resolved state persists
      subst heq
      have hafter : id ∉ (Correlator.step s (Correlator.Event.timeout id)).pending
          ∧ Correlator.countKey id
              (Correlator.step s (Correlator.Event.timeout id)).trace = 1 := by
        rcases h with ⟨hmem2, hcnt⟩ | ⟨hmem2, hcnt⟩
        · constructor
          · simpa [Correlator.step, hmem2] using hnd.not_mem_erase
          · simp only [Correlator.step, hmem2, if_pos]
            rw [corr_countKey_append, corr_countKey_single, if_pos rfl, hcnt]
        · have hdone := corr_done_step id s (Correlator.Event.timeout id) hmem2
          exact ⟨hdone.1, hdone.2.trans hcnt⟩
      have hrun := corr_done_run id es _ hafter.1
      exact ⟨hrun.1, hrun.2.trans hafter.2⟩
    · have hstep := corr_inv_step id s e hnd h
      exact ih (Correlator.step s e) hstep.1 hstep.2 htail

/-- Helper: a logged resolution stays logged (the trace is append-only). -/
theorem corr_trace_mono (id : Nat) (s : Correlator.State) (e : Correlator.Event)
    (hmem : (id, (none : Option Nat)) ∈ s.trace) :
    (id, (none : Option Nat)) ∈ (Correlator.step s e).trace := by
  cases e with
  | response rid success body =>
    by_cases hr : rid ∈ s.pending <;> simp [Correlator.step, hr, hmem]
  | timeout rid =>
    by_cases hr : rid ∈ s.pending <;> simp [Correlator.step, hr, hmem]

/-- Helper: run-level form of `corr_trace_mono`. -/
theorem corr_trace_mono_run (id : Nat) (events : List Correlator.Event) :
    ∀ s : Correlator.State, (id, (none : Option Nat)) ∈ s.trace →
      (id, (none : Option Nat)) ∈ (Correlator.run s events).trace := by
  induction events with
  | nil => intro s hmem; exact hmem
  | cons e es ih => intro s hmem; exact ih _ (corr_trace_mono id s e hmem)

/-- Helper: any event other than a correlated response preserves
"still unresolved-and-pending, or already resolved `null`". -/
theorem corr_null_inv_step (id : Nat) (s : Correlator.State) (e : Correlator.Event)
    (hne : Correlator.isResponseFor id e = false)
    (h : (id ∈ s.pending ∧ Correlator.countKey id s.trace = 0)
       ∨ (id, (none : Option Nat)) ∈ s.trace) :
    (id ∈ (Correlator.step s e).pending
        ∧ Correlator.countKey id (Correlator.step s e).trace = 0)
      ∨ (id, (none : Option Nat)) ∈ (Correlator.step s e).trace := by
  rcases h with ⟨hmem, hcnt⟩ | hres
  · cases e with
    | response rid success body =>
      have hrid : rid ≠ id := by simpa [Correlator.isResponseFor] using hne
      by_cases hr : rid ∈ s.pending
      · refine Or.inl ⟨?_, ?_⟩
        · simpa [Correlator.step, hr]
            using (List.mem_erase_of_ne (fun hh => hrid hh.symm)).mpr hmem
        · simp only [Correlator.step, hr, if_pos]
          rw [corr_countKey_append, corr_countKey_single, if_neg hrid, hcnt]
      · have hs : Correlator.step s (Correlator.Event.response rid success body) = s := by
          simp [Correlator.step, hr]
        rw [hs]
        exact Or.inl ⟨hmem, hcnt⟩
    | timeout rid =>
      by_cases hid : rid = id
      · subst hid
        exact Or.inr (by simp [Correlator.step, hmem])
      · by_cases hr : rid ∈ s.pending
        · refine Or.inl ⟨?_, ?_⟩
          · simpa [Correlator.step, hr]
              using (List.mem_erase_of_ne (fun hh => hid hh.symm)).mpr hmem
          · simp only [Correlator.step, hr, if_pos]
            rw [corr_countKey_append, corr_countKey_single, if_neg hid, hcnt]
        · have hs : Correlator.step s (Correlator.Event.timeout rid) = s := by
            simp [Correlator.step, hr]
          rw [hs]
          exact Or.inl ⟨hmem, hcnt⟩
  · exact Or.inr (corr_trace_mono id s e hres)

/-- Helper: firing the timeout of `id` from any state of the invariant
leaves `(id, null)` logged. -/
theorem corr_null_inv_timeout (id : Nat) (s : Correlator.State)
    (h : (id ∈ s.pending ∧ Correlator.countKey id s.trace = 0)
       ∨ (id, (none : Option Nat)) ∈ s.trace) :
    (id, (none : Option Nat))
      ∈ (Correlator.step s (Correlator.Event.timeout id)).trace := by
  rcases h with ⟨hmem, _⟩ | hres
  · simp [Correlator.step, hmem]
  · exact corr_trace_mono id s _ hres

/-- Helper: with no correlated response among the events, a pending
identifier whose timeout fires is resolved with `null`. -/
theorem corr_run_timeout_null (id : Nat) (events : List Correlator.Event) :
    ∀ s : Correlator.State,
      ((id ∈ s.pending ∧ Correlator.countKey id s.trace = 0)
        ∨ (id, (none : Option Nat)) ∈ s.trace) →
      (∀ e ∈ events, Correlator.isResponseFor id e = false) →
      Correlator.Event.timeout id ∈ events →
      (id, (none : Option Nat)) ∈ (Correlator.run s events).trace := by
  induction events with
  | nil => intro s _ _ hmem; exact absurd hmem (List.not_mem_nil _)
  | cons e es ih =>
    intro s h hnoresp hmem
    rcases List.mem_cons.mp hmem with heq | htail
    · subst heq
      exact corr_trace_mono_run id es _ (corr_null_inv_timeout id s h)
    · have hne : Correlator.isResponseFor id e = false :=
        hnoresp e (List.mem_cons_self _ _)
      exact ih (Correlator.step s e) (corr_null_inv_step id s e hne h)
        (fun e2 he2 => hnoresp e2 (List.mem_cons_of_mem _ he2)) htail

/-- C2: a registered pending entry is resolved at most once over any
sequence of responses and timeouts — a late response arriving after the
entry was removed is dropped without resolving again; if the entry's
timeout fires during the run it is resolved exactly once and is no longer
pending afterwards; and if the backend never sends a correlated response,
the timeout resolves the request with `null`. -/
theorem c2_pending_entry_resolved_exactly_once :
    ∀ (id : Nat) (s : Correlator.State) (events : List Correlator.Event),
      s.pending.Nodup → id ∈ s.pending → Correlator.countKey id s.trace = 0 →
      Correlator.countKey id (Correlator.run s events).trace ≤ 1
      ∧ (Correlator.Event.timeout id ∈ events →
         Correlator.countKey id (Correlator.run s events).trace = 1
         ∧ id ∉ (Correlator.run s events).pending)
      ∧ ((∀ e ∈ events, Correlator.isResponseFor id e = false) →
         Correlator.Event.timeout id ∈ events →
         (id, (none : Option Nat)) ∈ (Correlator.run s events).trace) := by
  intro id s events hnd hmem hcnt
  have hinv := corr_inv_run id events s hnd (Or.inl ⟨hmem, hcnt⟩)
  refine ⟨?_, ?_, ?_⟩
  · rcases hinv.2 with ⟨_, h0⟩ | ⟨_, h1⟩
    · omega
    · omega
  · intro ht
    have hres := corr_run_resolved_of_timeout id events s hnd (Or.inl ⟨hmem, hcnt⟩) ht
    exact ⟨hres.2, hres.1⟩
  · intro hnoresp ht
    exact corr_run_timeout_null id events s (Or.inl ⟨hmem, hcnt⟩) hnoresp ht

/-! ## Witnesses -/

/-- Witness for C1 at concrete inputs: a non-empty sidecar hover wins
without the fallback, and an absent sidecar highlight response falls
through to the fallback. -/
theorem c1_witness :
    (Tsgo.getQuickInfoAtPosition
        { sidecarHover := some { contents := HoverContents.str "hover text" }
          fallback := some (Except.ok (some "fallback answer")) }
        "/a/b.ts" ⟨false, false, [], 0, []⟩).result = some "hover text"
    ∧ (Tsgo.getQuickInfoAtPosition
        { sidecarHover := some { contents := HoverContents.str "hover text" }
          fallback := some (Except.ok (some "fallback answer")) }
        "/a/b.ts" ⟨false, false, [], 0, []⟩).fallbackInvoked = false
    ∧ (Tsgo.getDocumentHighlights
        { sidecarResponse := none, openDocText := none, diskText := none
          fallback := some (Except.ok (some [])) }
        "/a/b.ts" 0).fallbackInvoked = true := by
  have h := c1_cross_cutting_sidecar_first "/a/b.ts" (by decide)
  have hq := h.2.2.2.1
      { sidecarHover := some { contents := HoverContents.str "hover text" }
        fallback := some (Except.ok (some "fallback answer")) }
      ⟨false, false, [], 0, []⟩ "hover text" (by decide) (by decide)
  have hh := h.2.2.1
      { sidecarResponse := none, openDocText := none, diskText := none
        fallback := some (Except.ok (some [])) }
      0 (Or.inl rfl)
  exact ⟨hq.1, hq.2.1, hh.1⟩

/-- Witness for C2 at a concrete run: two responses and a timeout for the
same identifier deliver exactly one resolution, and a lone timeout
resolves `null`. -/
theorem c2_witness :
    Correlator.countKey 1
        (Correlator.run ⟨[1], []⟩
          [Correlator.Event.response 1 true (some 7),
           Correlator.Event.response 1 true (some 8),
           Correlator.Event.timeout 1]).trace = 1
    ∧ (1, (none : Option Nat))
        ∈ (Correlator.run ⟨[1], []⟩ [Correlator.Event.timeout 1]).trace := by
  constructor
  · exact ((c2_pending_entry_resolved_exactly_once 1 ⟨[1], []⟩
      [Correlator.Event.response 1 true (some 7),
       Correlator.Event.response 1 true (some 8),
       Correlator.Event.timeout 1]
      (by decide) (by decide) (by decide)).2.1 (by decide)).1
  · exact (c2_pending_entry_resolved_exactly_once 1 ⟨[1], []⟩
      [Correlator.Event.timeout 1]
      (by decide) (by decide) (by decide)).2.2 (by decide) (by decide)

/-- Witness for C3 at a concrete document: first open emits one `didOpen`,
the version resync emits nothing, closing emits one `didClose`, closing
untracked emits nothing. -/
theorem c3_witness :
    let doc : DocSync.Doc :=
      { scheme := "file", fsPath := "/proj/a.ts", languageId := "typescript"
        version := 1, text := "const x = 1" }
    DocSync.syncOpenDocument true [] doc
      = ([("/proj/a.ts", 1)],
         [DocSync.Notif.didOpen "/proj/a.ts" "typescript" 1 "const x = 1"])
    ∧ DocSync.syncOpenDocument true [("/proj/a.ts", 1)] doc = ([("/proj/a.ts", 1)], [])
    ∧ DocSync.syncClosedDocument true [("/proj/a.ts", 1)] "file" "/proj/a.ts"
      = ([], [DocSync.Notif.didClose "/proj/a.ts"])
    ∧ DocSync.syncClosedDocument true [] "file" "/proj/a.ts" = ([], []) := by
  intro doc
  have h := c3_document_sync_idempotent_per_version [] doc rfl (by decide)
  have h2 := c3_document_sync_idempotent_per_version [("/proj/a.ts", 1)] doc rfl (by decide)
  refine ⟨?_, ?_, ?_, ?_⟩
  · exact ((h.2.1 (by decide)).1).trans (by decide)
  · exact (h2.1 (by decide)).trans (by decide)
  · exact ((h2.2.2.2.1 1 (by decide)).1).trans (by decide)
  · exact (h.2.2.2.2.1 (by decide)).trans (by decide)

/-- Witness for C4 at concrete states: the first hover releases the
waiter with `true`, a fired timeout resolves `false`, and a
zero-timeout registration resolves `false` immediately. -/
theorem c4_witness :
    ((HoverReadiness.step ⟨false, false, [5], 6, []⟩
        HoverReadiness.Event.hover).hoverReady = true
      ∧ (HoverReadiness.step ⟨false, false, [5], 6, []⟩
          HoverReadiness.Event.hover).waiters = []
      ∧ (5, true) ∈ (HoverReadiness.step ⟨false, false, [5], 6, []⟩
          HoverReadiness.Event.hover).resolutions)
    ∧ (5, false) ∈ (HoverReadiness.step ⟨false, false, [5], 6, []⟩
        (HoverReadiness.Event.fire 5)).resolutions
    ∧ HoverReadiness.step ⟨false, false, [], 0, []⟩ (HoverReadiness.Event.register 0)
        = ⟨false, false, [], 1, [(0, false)]⟩ := by
  have h := c4_hover_readiness_protocol
  refine ⟨?_, ?_, ?_⟩
  · have h3 := h.2.2.1 ⟨false, false, [5], 6, []⟩ rfl
    exact ⟨h3.1, h3.2.1, h3.2.2 5 (by decide)⟩
  · exact (h.2.2.2.1 ⟨false, false, [5], 6, []⟩ 5 (by decide) (by decide)).1
  · exact (h.2.2.2.2.1 ⟨false, false, [], 0, []⟩ 0 rfl rfl (by decide)).trans (by decide)

/-- Witness for C7 at concrete probes: a clean probe yields the sidecar
client, a throwing probe yields the bridged client. -/
theorem c7_witness :
    Selector.createTsBackendClient (some Selector.TsBackendPreference.auto)
        (Except.ok { error := none, signal := none, status := some 0 })
      = Selector.ClientKind.tsgoLspClient
    ∧ Selector.createTsBackendClient (some Selector.TsBackendPreference.auto)
        (Except.error "spawn tsgo ENOENT")
      = Selector.ClientKind.tsserverClient := by
  have h1 := c7_auto_mode_probe_selection
      (Except.ok { error := none, signal := none, status := some 0 })
  have h2 := c7_auto_mode_probe_selection (Except.error "spawn tsgo ENOENT")
  exact ⟨h1.1.mpr (by decide), h2.2.2 (by decide)⟩

/-- Witness for C8 at a concrete file system: with `/a/b/tsconfig.json`
and `/a/jsconfig.json` both found for `/a/b/c.ts`, the deeper
`tsconfig.json` wins; with nothing found, the fallback's project info is
returned. -/
theorem c8_witness :
    findClosestConfig
        (fun p => ["/a/b/tsconfig.json", "/a/jsconfig.json"].contains p)
        "/a/b/c.ts"
      = some "/a/b/tsconfig.json"
    ∧ Tsgo.getProjectInfo (fun _ => false)
        (some (Except.ok (some "/fallback/tsconfig.json"))) "/x/y.ts"
      = (some "/fallback/tsconfig.json", true) := by
  have h := c8_project_info_config_resolution
  constructor
  · have h1 := (h.1 (fun p => ["/a/b/tsconfig.json", "/a/jsconfig.json"].contains p)
        none "/a/b/c.ts" "/a/b/tsconfig.json" "/a/jsconfig.json").1
        (by decide) (by decide) (by decide) (by decide)
    exact h1.trans (by decide)
  · have h2 := (h.1 (fun _ => false)
        (some (Except.ok (some "/fallback/tsconfig.json"))) "/x/y.ts" "" "").2.2.2.2.1
        (by decide)
    exact h2.trans (by decide)

end VueLS
